import Mathlib

/-!
Verification of the Bayesian sampling-based bandit engine
(`src/BayesianBanditsSampling.py`, classes `BayesianBanditSampling` and
`BayesianBanditSamplingMonteCarlo`).

The Python code is shallowly embedded over exact rational arithmetic (`ℚ`).
Randomness (scipy `rvs` draws, `np.random.multinomial` vote outcomes, reward
draws) is supplied by a deterministic oracle structure, so every run is a
deterministic function of its configuration and oracle.  IEEE special values
`np.inf` / `-np.inf`, which the code produces and stores (the `argMax`
sentinel, `np.log(0)`, division by a zero variance), are modelled by the
three-valued type `QInf`.
-/

/-- Extended rationals: models the float values that can appear in the
`n_samples` array and in intermediate budget computations, including the
IEEE infinities `np.inf` (the `argMax` sentinel, `1/0.0`) and `-np.inf`
(`np.log(0)`). -/
inductive QInf where
  | negInf
  | fin (q : ℚ)
  | inf
deriving DecidableEq

/-- Embeds `np.maximum` on the extended values (`np.maximum(-inf, x) = x`,
`np.maximum(inf, x) = inf`). -/
def qmax : QInf → QInf → QInf
  | .negInf, b => b
  | a, .negInf => a
  | .inf, _ => .inf
  | _, .inf => .inf
  | .fin a, .fin b => .fin (max a b)

/-- Embeds `np.minimum` on the extended values. -/
def qmin : QInf → QInf → QInf
  | .inf, b => b
  | a, .inf => a
  | .negInf, _ => .negInf
  | _, .negInf => .negInf
  | .fin a, .fin b => .fin (min a b)

/-- Embeds numpy float division `1 / d` for a finite float `d`: division by
(positive) zero yields `np.inf`. -/
def qinv (d : ℚ) : QInf := if d = 0 then .inf else .fin (1 / d)

/-- Embeds Python `int(q)` on a finite float: truncation toward zero. -/
def truncInt (q : ℚ) : ℤ := if 0 ≤ q then ⌊q⌋ else -⌊-q⌋

/-- Number of multinomial vote rows drawn on the finite-budget path:
`size=int(self.n_samples[t])` in
`np.random.multinomial(1, ..., size=int(self.n_samples[t]))` (line 140).
The conversion is `int` truncation, applied to a nonnegative budget. -/
def nVotes (q : ℚ) : ℕ := (truncInt q).toNat

/-- Embeds `v.argmax()` / `argmax(axis=0)` for a vector read off at indices
`0..n`: the lowest index attaining the maximum (numpy returns the first
occurrence of the maximal value). -/
def argmaxUpTo (f : ℕ → ℚ) : ℕ → ℕ
  | 0 => 0
  | n+1 => if f (argmaxUpTo f n) < f (n+1) then n+1 else argmaxUpTo f n

theorem argmaxUpTo_le (f : ℕ → ℚ) : ∀ n, argmaxUpTo f n ≤ n := by
  intro n
  induction n with
  | zero => simp [argmaxUpTo]
  | succ n ih =>
    simp only [argmaxUpTo]
    split
    · exact le_refl _
    · exact Nat.le_succ_of_le ih

theorem argmaxUpTo_is_max (f : ℕ → ℚ) : ∀ n, ∀ j ≤ n, f j ≤ f (argmaxUpTo f n) := by
  intro n
  induction n with
  | zero => intro j hj; interval_cases j; simp [argmaxUpTo]
  | succ n ih =>
    intro j hj
    simp only [argmaxUpTo]
    split
    · rename_i hlt
      rcases Nat.lt_succ_iff_lt_or_eq.mp (Nat.lt_succ_of_le hj) with h | h
      · exact le_trans (ih j (Nat.lt_succ_iff.mp h)) (le_of_lt hlt)
      · exact le_of_eq (congrArg f h)
    · rename_i hnlt
      rcases Nat.lt_succ_iff_lt_or_eq.mp (Nat.lt_succ_of_le hj) with h | h
      · exact ih j (Nat.lt_succ_iff.mp h)
      · rw [h]; exact le_of_not_lt hnlt

theorem argmaxUpTo_first (f : ℕ → ℚ) :
    ∀ n, ∀ j < argmaxUpTo f n, f j < f (argmaxUpTo f n) := by
  intro n
  induction n with
  | zero => intro j hj; simp [argmaxUpTo] at hj
  | succ n ih =>
    intro j hj
    simp only [argmaxUpTo] at hj ⊢
    split
    · rename_i hlt
      rw [if_pos hlt] at hj
      exact lt_of_le_of_lt (argmaxUpTo_is_max f n j (Nat.lt_succ_iff.mp hj)) hlt
    · rename_i hnlt
      rw [if_neg hnlt] at hj
      exact ih j hj

/-- Monte Carlo predictive mean (line 203): for the K×M sample matrix
`samples`, the fraction of the M columns whose argmax over arms `0..K-1`
is arm `k`, i.e. the column-wise mean of the 0/1 indicator matrix
`returns_expected_samples.argmax(axis=0) == arange(K)`. -/
def mcMean (samples : ℕ → ℕ → ℚ) (K M k : ℕ) : ℚ :=
  (((Finset.range M).filter
      (fun j => argmaxUpTo (fun i => samples i j) (K-1) = k)).card : ℚ) / M

/-- Monte Carlo predictive variance (line 205): the population variance
(`np.var`, `ddof=0`) across the M columns of the same 0/1 indicator
matrix. -/
def mcVar (samples : ℕ → ℕ → ℚ) (K M k : ℕ) : ℚ :=
  (∑ j ∈ Finset.range M,
      ((if argmaxUpTo (fun i => samples i j) (K-1) = k then (1:ℚ) else 0)
        - mcMean samples K M k)^2) / M

theorem mcMean_nonneg (samples : ℕ → ℕ → ℚ) (K M k : ℕ) : 0 ≤ mcMean samples K M k := by
  unfold mcMean
  positivity

/-- Each Monte Carlo column votes for exactly one arm, and that arm is in
`[0, K)`, so the per-arm vote counts partition the M columns. -/
theorem mcMean_sum_eq_one (samples : ℕ → ℕ → ℚ) (K M : ℕ) (hK : 1 ≤ K) (hM : 1 ≤ M) :
    ∑ k ∈ Finset.range K, mcMean samples K M k = 1 := by
  unfold mcMean
  rw [← Finset.sum_div]
  have hcount : ∑ k ∈ Finset.range K,
      (((Finset.range M).filter
        (fun j => argmaxUpTo (fun i => samples i j) (K-1) = k)).card : ℚ) = M := by
    have hswap : ∀ k ∈ Finset.range K,
        (((Finset.range M).filter
          (fun j => argmaxUpTo (fun i => samples i j) (K-1) = k)).card : ℚ)
        = ∑ j ∈ Finset.range M,
            (if argmaxUpTo (fun i => samples i j) (K-1) = k then (1:ℚ) else 0) := by
      intro k _
      rw [Finset.sum_boole]
    rw [Finset.sum_congr rfl hswap, Finset.sum_comm]
    have hone : ∀ j ∈ Finset.range M,
        (∑ k ∈ Finset.range K,
          (if argmaxUpTo (fun i => samples i j) (K-1) = k then (1:ℚ) else 0)) = 1 := by
      intro j _
      rw [Finset.sum_ite_eq (Finset.range K) (argmaxUpTo (fun i => samples i j) (K-1))
        (fun _ => (1:ℚ))]
      have hmem : argmaxUpTo (fun i => samples i j) (K-1) ∈ Finset.range K := by
        rw [Finset.mem_range]
        exact lt_of_le_of_lt (argmaxUpTo_le _ _) (Nat.sub_lt hK one_pos)
      rw [if_pos hmem]
    rw [Finset.sum_congr rfl hone]
    simp
  rw [hcount]
  have hM0 : (M:ℚ) ≠ 0 := by positivity
  field_simp

/-- Key algebraic fact behind claim C10: the population variance of a 0/1
indicator sample equals `p * (1 - p)` where `p` is its mean. -/
theorem mcVar_eq_mean_mul (samples : ℕ → ℕ → ℚ) (K M k : ℕ) (hM : 1 ≤ M) :
    mcVar samples K M k = mcMean samples K M k * (1 - mcMean samples K M k) := by
  have hM0 : (M:ℚ) ≠ 0 := by positivity
  set p := mcMean samples K M k with hp
  have hsum : ∑ j ∈ Finset.range M,
      (if argmaxUpTo (fun i => samples i j) (K-1) = k then (1:ℚ) else 0) = p * M := by
    rw [Finset.sum_boole, hp]
    unfold mcMean
    field_simp
  unfold mcVar
  have hexp : ∀ j ∈ Finset.range M,
      ((if argmaxUpTo (fun i => samples i j) (K-1) = k then (1:ℚ) else 0) - p)^2
      = (1 - 2*p) * (if argmaxUpTo (fun i => samples i j) (K-1) = k then (1:ℚ) else 0)
        + p^2 := by
    intro j _
    split <;> ring
  rw [Finset.sum_congr rfl hexp, Finset.sum_add_distrib, ← Finset.mul_sum, hsum]
  simp only [Finset.sum_const, Finset.card_range, nsmul_eq_mul]
  field_simp
  ring

theorem mcVar_nonneg (samples : ℕ → ℕ → ℚ) (K M k : ℕ) : 0 ≤ mcVar samples K M k := by
  unfold mcVar
  positivity

theorem mcMean_le_one (samples : ℕ → ℕ → ℚ) (K M k : ℕ) (hM : 1 ≤ M) :
    mcMean samples K M k ≤ 1 := by
  unfold mcMean
  rw [div_le_one (by positivity)]
  exact_mod_cast Nat.le_trans (Finset.card_filter_le _ _) (by simp)

theorem mcVar_le_quarter (samples : ℕ → ℕ → ℚ) (K M k : ℕ) (hM : 1 ≤ M) :
    mcVar samples K M k ≤ 1/4 := by
  rw [mcVar_eq_mean_mul samples K M k hM]
  nlinarith [sq_nonneg (mcMean samples K M k - 1/2)]

/-- Configuration of a `BayesianBanditSampling` run: the `reward_function`
and `reward_prior` dictionaries (their scipy distribution `name` tags and
the Beta prior hyperparameter vectors, one entry per arm) and the
`sampling` dictionary (its `type` tag and the mode-specific numeric knobs
`n_samples`, `n_0`, `n`, `n_max`).  Knobs irrelevant to the selected mode
are simply never read, as in the Python dictionaries. -/
structure Config where
  reward_name : String
  prior_name : String
  alpha : ℕ → ℚ
  beta : ℕ → ℚ
  sampling_type : String
  s_n_samples : ℚ
  s_n_0 : ℚ
  s_n : ℚ
  s_n_max : ℚ

/-- Deterministic oracle supplying every random draw and every
transcendental float the run consumes:
`thetaDraws t k j` is the j-th posterior parameter sample for arm k drawn
at time t (`reward_posterior['dist'][0].rvs`, line 189); `meanFn` is the
reward family's mean function used on the non-Bernoulli branch (line 197);
`votes t j` is the arm indicated by the j-th one-hot row returned by
`np.random.multinomial(1, mean, size=n)` at time t (line 140);
`rewards t a` is the entry at index `a` of the reward vector drawn at time
t (`reward_function['dist'].rvs(...)[action]`, line 144); `lg t` and
`sq t` are the float values of `np.log(t)` and `np.sqrt(t)`
(`np.log(0) = -inf`, `np.sqrt(0) = 0`). -/
structure Oracle where
  thetaDraws : ℕ → ℕ → ℕ → ℚ
  meanFn : ℚ → ℚ
  votes : ℕ → ℕ → ℕ
  rewards : ℕ → ℕ → ℚ
  lg : ℕ → QInf
  sq : ℕ → QInf

/-- Mutable state of one bandit run: the K×t_max arrays allocated at the
top of `execute` (lines 95-99) plus the append-only posterior
hyperparameter snapshot lists initialised in `__init__` (lines 51-56).
Arrays are total functions `arm → time → ℚ` (entries outside the written
region stay at their zero initialisation). -/
structure BState where
  predMean : ℕ → ℕ → ℚ
  predVar : ℕ → ℕ → ℚ
  actions : ℕ → ℕ → ℚ
  returns : ℕ → ℕ → ℚ
  returns_expected : ℕ → ℕ → ℚ
  n_samples : ℕ → QInf
  alphas : List (ℕ → ℚ)
  betas : List (ℕ → ℚ)

/-- Writes column `t` of a K×t_max array (`arr[:,t] = col`). -/
def writeCol (m : ℕ → ℕ → ℚ) (t : ℕ) (col : ℕ → ℚ) : ℕ → ℕ → ℚ :=
  fun k j => if j = t then col k else m k j

/-- Writes one entry of a K×t_max array (`arr[k0,t] = v`). -/
def writeEntry (m : ℕ → ℕ → ℚ) (k0 t : ℕ) (v : ℚ) : ℕ → ℕ → ℚ :=
  fun k j => if k = k0 ∧ j = t then v else m k j

/-- The per-draw expected-return samples (lines 192-197): for a Bernoulli
reward the sampled Beta parameters are the expected returns
(`returns_expected_samples = reward_params_samples`); for any other reward
family the family's mean function is applied to the sampled parameters. -/
def returnsExpectedSamples (cfg : Config) (o : Oracle) (t k j : ℕ) : ℚ :=
  if cfg.reward_name = "bernoulli" then o.thetaDraws t k j
  else o.meanFn (o.thetaDraws t k j)

/-- State after the writes of `compute_action_predictive_density`: column
`t` of `returns_expected` (line 199) and of the predictive density mean
(line 203) and variance (line 205). -/
def cpdState (cfg : Config) (o : Oracle) (K M t : ℕ) (st : BState) : BState :=
  { st with
      returns_expected := writeCol st.returns_expected t
        (fun k => (∑ j ∈ Finset.range M, returnsExpectedSamples cfg o t k j) / M),
      predMean := writeCol st.predMean t
        (mcMean (fun i j => returnsExpectedSamples cfg o t i j) K M),
      predVar := writeCol st.predVar t
        (mcVar (fun i j => returnsExpectedSamples cfg o t i j) K M) }

/-- Embeds `BayesianBanditSamplingMonteCarlo.compute_action_predictive_density`
(lines 174-205).  If the prior is not Beta it raises
(`ValueError`, line 186) before touching any state; otherwise it performs
the three column writes of `cpdState`.  The read of the latest posterior
hyperparameters (line 184) only parameterises the `rvs` draw, which the
oracle supplies. -/
def compute_action_predictive_density (cfg : Config) (o : Oracle) (K M t : ℕ)
    (st : BState) : BState × Option String :=
  if cfg.prior_name = "beta" then (cpdState cfg o K M t st, none)
  else (st, some "ValueError: reward_prior not implemented yet")

/-- Embeds the sampling-budget computation of `execute` (lines 109-131),
one branch per `sampling['type']`, including the `-inf`/`inf` float
arithmetic of the `logT`, `invVar` and `invPFA` branches and the final
`ValueError` for an unsupported type.  `mean` and `var` are the predictive
density columns at the current time. -/
def computeNSamples (cfg : Config) (o : Oracle) (K t : ℕ)
    (mean var : ℕ → ℚ) : Except String QInf :=
  if cfg.sampling_type = "static" then .ok (.fin cfg.s_n_samples)
  else if cfg.sampling_type = "linear" then
    .ok (.fin (max (cfg.s_n_0 + cfg.s_n * t) 1))
  else if cfg.sampling_type = "logT" then .ok (qmax (o.lg t) (.fin 1))
  else if cfg.sampling_type = "sqrtT" then .ok (qmax (o.sq t) (.fin 1))
  else if cfg.sampling_type = "invVar" then
    .ok (qmin (qmax (qinv (var (argmaxUpTo mean (K-1)))) (.fin 1)) (.fin cfg.s_n_max))
  else if cfg.sampling_type = "invPFA" then
    .ok (qmin (qmax (qinv (1 - mean (argmaxUpTo mean (K-1)))) (.fin 1)) (.fin cfg.s_n_max))
  else if cfg.sampling_type = "argMax" then .ok .inf
  else .error "ValueError: Invalid sampling type"

/-- Vote tally on the finite-budget path: `np.random.multinomial(1, mean,
size=n)` yields `n` one-hot rows (row `j` has its 1 at arm `votes j`) and
`.sum(axis=0)` adds them per arm (line 140). -/
def voteTally (votes : ℕ → ℕ) (n k : ℕ) : ℚ :=
  ∑ j ∈ Finset.range n, (if votes j = k then (1:ℚ) else 0)

/-- The arm picked on the finite-budget path (line 140): the lowest-index
maximiser of the vote tally over arms `0..K-1`, with `int(q)` votes
drawn. -/
def chooseArm (votes : ℕ → ℕ) (q : ℚ) (K : ℕ) : ℕ :=
  argmaxUpTo (voteTally votes (nVotes q)) (K-1)

/-- Validity check that `np.random.multinomial` performs on its `pvals`
argument: entries must be nonnegative and the first K-1 must not sum past
1 (the last entry is treated as the remaining mass); otherwise it raises
`ValueError`. -/
def validPvals (p : ℕ → ℚ) (K : ℕ) : Prop :=
  (∀ k < K, 0 ≤ p k) ∧ ∑ k ∈ Finset.range (K-1), p k ≤ 1

instance (p : ℕ → ℚ) (K : ℕ) : Decidable (validPvals p K) := by
  unfold validPvals
  exact instDecidableAnd

/-- Embeds `update_reward_posterior` (lines 70-89): for the
Bernoulli-reward / Beta-prior pairing it returns the new hyperparameter
snapshot built from the per-arm success count `s_t = returns[:,:t+1].sum`
and trial count `n_t = actions[:,:t+1].sum`; any other pairing raises
`ValueError` (line 89). -/
def update_reward_posterior (cfg : Config) (st : BState) (t : ℕ) :
    Except String ((ℕ → ℚ) × (ℕ → ℚ)) :=
  if cfg.reward_name = "bernoulli" ∧ cfg.prior_name = "beta" then
    .ok (fun k => cfg.alpha k + ∑ j ∈ Finset.range (t+1), st.returns k j,
         fun k => cfg.beta k +
           (∑ j ∈ Finset.range (t+1), st.actions k j
             - ∑ j ∈ Finset.range (t+1), st.returns k j))
  else .error "ValueError: Invalid reward_function with reward_prior combination"

/-- Sequencing of the mutating phases of one loop iteration: the state
mutated so far is kept even when a later phase raises, matching Python
exception semantics (attribute writes persist past the raise). -/
def andThen (r : BState × Option String) (f : BState → BState × Option String) :
    BState × Option String :=
  match r with
  | (st, none) => f st
  | (st, some e) => (st, some e)

/-- Budget phase of one iteration (lines 109-131): computes `n_samples`
for this step and stores it into the `n_samples` array. -/
def budgetPhase (cfg : Config) (o : Oracle) (K t : ℕ) (st : BState) :
    BState × Option String :=
  match computeNSamples cfg o K t (fun k => st.predMean k t) (fun k => st.predVar k t) with
  | .error e => (st, some e)
  | .ok nr => ({ st with n_samples := fun j => if j = t then nr else st.n_samples j }, none)

/-- Action-selection and return phase (lines 133-144), branching on the
stored `self.n_samples[t] == np.inf`.

On the infinite-sentinel branch line 136 evaluates
`self.actions_predictive_density[:,t]` — but `actions_predictive_density`
is the dict `{'mean': ..., 'var': ...}`, so indexing it with `[:,t]`
looks up the unhashable key `(slice(None), t)` and unconditionally raises
`TypeError: unhashable type: 'slice'`; no action is ever written on this
branch.

On the finite branch, `int(-inf)` would raise `OverflowError` (not
reachable: no budget formula stores `-inf`); `np.random.multinomial`
validates `pvals` and rejects a negative `size`; otherwise the chosen
arm's entry of the `actions` column is set to 1 and line 141 recovers
`action` as the unique index whose freshly-written column entry equals 1
(i.e. the same arm), whose drawn return (line 144) is then recorded. -/
def selectPhase (o : Oracle) (K t : ℕ) (st : BState) : BState × Option String :=
  match st.n_samples t with
  | .inf => (st, some "TypeError: unhashable type: slice")
  | .negInf => (st, some "OverflowError: cannot convert float infinity to integer")
  | .fin q =>
    if validPvals (fun k => st.predMean k t) K then
      if truncInt q < 0 then
        (st, some "ValueError: negative dimensions are not allowed")
      else
        (let a := chooseArm (o.votes t) q K
         let st1 := { st with actions := writeEntry st.actions a t 1 }
         ({ st1 with returns := writeEntry st1.returns a t (o.rewards t a) }, none))
    else (st, some "ValueError: pvals do not sum to 1")

/-- Posterior-update phase (line 147): appends the new hyperparameter
snapshot, or raises for an unsupported reward/prior pairing. -/
def updatePhase (cfg : Config) (t : ℕ) (st : BState) : BState × Option String :=
  match update_reward_posterior cfg st t with
  | .error e => (st, some e)
  | .ok ab => ({ st with alphas := st.alphas ++ [ab.1], betas := st.betas ++ [ab.2] }, none)

/-- One iteration of the `execute` loop body (lines 103-147) at time t:
predictive density, sampling budget, action selection and return draw,
posterior update.  On a raise the iteration stops and the state mutated
so far is returned together with the error. -/
def stepB (cfg : Config) (o : Oracle) (K M t : ℕ) (st : BState) :
    BState × Option String :=
  andThen (andThen (andThen (compute_action_predictive_density cfg o K M t st)
    (budgetPhase cfg o K t)) (selectPhase o K t)) (updatePhase cfg t)

/-- State at the top of `execute` (lines 95-99): all arrays zeroed,
`n_samples` initialised to ones (`np.ones(t_max)`), and the posterior
snapshot lists holding the prior hyperparameters from `__init__`. -/
def initState (cfg : Config) : BState :=
  { predMean := fun _ _ => 0, predVar := fun _ _ => 0,
    actions := fun _ _ => 0, returns := fun _ _ => 0,
    returns_expected := fun _ _ => 0,
    n_samples := fun _ => .fin 1,
    alphas := [cfg.alpha], betas := [cfg.beta] }

/-- Runs loop iterations `t, t+1, ...` for `fuel` more steps, stopping at
the first raised error (which aborts the Python loop). -/
def runFrom (cfg : Config) (o : Oracle) (K M : ℕ) :
    ℕ → ℕ → BState → BState × Option String
  | 0, _, st => (st, none)
  | fuel+1, t, st =>
    match stepB cfg o K M t st with
    | (st1, none) => runFrom cfg o K M fuel (t+1) st1
    | (st1, some e) => (st1, some e)

/-- Embeds `BayesianBanditSampling.execute(t_max)` for the Monte Carlo
subclass: allocate fresh state, then run the loop for `t = 0..t_max-1`.
Returns the final state and the error aborting the run, if any. -/
def execute (cfg : Config) (o : Oracle) (K M tmax : ℕ) : BState × Option String :=
  runFrom cfg o K M tmax 0 (initState cfg)

theorem andThen_ok {r : BState × Option String} {f : BState → BState × Option String}
    {st2 : BState} (h : andThen r f = (st2, none)) :
    ∃ st1, r = (st1, none) ∧ f st1 = (st2, none) := by
  obtain ⟨sta, e⟩ := r
  cases e with
  | none => exact ⟨sta, rfl, h⟩
  | some e =>
    simp only [andThen] at h
    exact absurd (congrArg Prod.snd h) (by simp)

theorem cpd_ok {cfg : Config} {o : Oracle} {K M t : ℕ} {st st1 : BState}
    (h : compute_action_predictive_density cfg o K M t st = (st1, none)) :
    cfg.prior_name = "beta" ∧
    st1.actions = st.actions ∧ st1.returns = st.returns ∧
    st1.alphas = st.alphas ∧ st1.betas = st.betas ∧
    st1.n_samples = st.n_samples ∧
    st1.predMean = writeCol st.predMean t
      (mcMean (fun i j => returnsExpectedSamples cfg o t i j) K M) ∧
    st1.predVar = writeCol st.predVar t
      (mcVar (fun i j => returnsExpectedSamples cfg o t i j) K M) := by
  unfold compute_action_predictive_density at h
  split at h
  · rename_i hp
    have h1 := congrArg Prod.fst h
    simp only at h1
    subst h1
    exact ⟨hp, rfl, rfl, rfl, rfl, rfl, rfl, rfl⟩
  · exact absurd (congrArg Prod.snd h) (by simp)

theorem budgetPhase_ok {cfg : Config} {o : Oracle} {K t : ℕ} {st st1 : BState}
    (h : budgetPhase cfg o K t st = (st1, none)) :
    ∃ nr, computeNSamples cfg o K t (fun k => st.predMean k t) (fun k => st.predVar k t)
        = .ok nr ∧
      st1.actions = st.actions ∧ st1.returns = st.returns ∧
      st1.alphas = st.alphas ∧ st1.betas = st.betas ∧
      st1.predMean = st.predMean ∧ st1.predVar = st.predVar ∧
      st1.n_samples t = nr := by
  unfold budgetPhase at h
  split at h
  · exact absurd (congrArg Prod.snd h) (by simp)
  · rename_i nr hnr
    have h1 := congrArg Prod.fst h
    simp only at h1
    subst h1
    exact ⟨nr, hnr, rfl, rfl, rfl, rfl, rfl, rfl, by simp⟩

theorem selectPhase_ok {o : Oracle} {K t : ℕ} {st st1 : BState}
    (h : selectPhase o K t st = (st1, none)) :
    ∃ q, st.n_samples t = .fin q ∧
      validPvals (fun k => st.predMean k t) K ∧ 0 ≤ truncInt q ∧
      st1.actions = writeEntry st.actions (chooseArm (o.votes t) q K) t 1 ∧
      st1.returns = writeEntry st.returns (chooseArm (o.votes t) q K) t
        (o.rewards t (chooseArm (o.votes t) q K)) ∧
      st1.alphas = st.alphas ∧ st1.betas = st.betas ∧
      st1.predMean = st.predMean ∧ st1.n_samples = st.n_samples := by
  unfold selectPhase at h
  split at h
  · exact absurd (congrArg Prod.snd h) (by simp)
  · exact absurd (congrArg Prod.snd h) (by simp)
  · rename_i q hq
    split at h
    · rename_i hvalid
      split at h
      · exact absurd (congrArg Prod.snd h) (by simp)
      · rename_i htr
        have h1 := congrArg Prod.fst h
        simp only at h1
        subst h1
        exact ⟨q, hq, hvalid, le_of_not_lt htr, rfl, rfl, rfl, rfl, rfl, rfl⟩
    · exact absurd (congrArg Prod.snd h) (by simp)

theorem updatePhase_ok {cfg : Config} {t : ℕ} {st st1 : BState}
    (h : updatePhase cfg t st = (st1, none)) :
    cfg.reward_name = "bernoulli" ∧ cfg.prior_name = "beta" ∧
    st1.actions = st.actions ∧ st1.returns = st.returns ∧
    st1.predMean = st.predMean ∧ st1.n_samples = st.n_samples ∧
    st1.alphas = st.alphas ++
      [fun k => cfg.alpha k + ∑ j ∈ Finset.range (t+1), st.returns k j] ∧
    st1.betas = st.betas ++
      [fun k => cfg.beta k + (∑ j ∈ Finset.range (t+1), st.actions k j
          - ∑ j ∈ Finset.range (t+1), st.returns k j)] := by
  unfold updatePhase at h
  split at h
  · exact absurd (congrArg Prod.snd h) (by simp)
  · rename_i ab hab
    have h1 := congrArg Prod.fst h
    simp only at h1
    subst h1
    unfold update_reward_posterior at hab
    split at hab
    · rename_i hnames
      injection hab with hab
      subst hab
      exact ⟨hnames.1, hnames.2, rfl, rfl, rfl, rfl, rfl, rfl⟩
    · exact absurd hab (by simp)

/-- Characterisation of one successful loop iteration: it can only be the
Bernoulli/Beta pairing, and the iteration writes a single action entry 1
at `(a, t)` for the tallied arm `a`, the corresponding drawn return, and
appends the conjugate-update posterior snapshot. -/
theorem stepB_ok_spec {cfg : Config} {o : Oracle} {K M t : ℕ} {st st2 : BState}
    (h : stepB cfg o K M t st = (st2, none)) :
    cfg.reward_name = "bernoulli" ∧ cfg.prior_name = "beta" ∧
    ∃ a, a ≤ K - 1 ∧
      st2.actions = writeEntry st.actions a t 1 ∧
      st2.returns = writeEntry st.returns a t (o.rewards t a) ∧
      st2.alphas = st.alphas ++
        [fun k => cfg.alpha k + ∑ j ∈ Finset.range (t+1), st2.returns k j] ∧
      st2.betas = st.betas ++
        [fun k => cfg.beta k + (∑ j ∈ Finset.range (t+1), st2.actions k j
            - ∑ j ∈ Finset.range (t+1), st2.returns k j)] := by
  unfold stepB at h
  obtain ⟨sts, hs, h⟩ := andThen_ok h
  obtain ⟨stb, hb, hsel⟩ := andThen_ok hs
  obtain ⟨stc, hc, hbud⟩ := andThen_ok hb
  obtain ⟨hprior, hca, hcr, hcal, hcbe, hcn, hcm, hcv⟩ := cpd_ok hc
  obtain ⟨nr, hnr, hba, hbr, hbal, hbbe, hbm, hbv, hbn⟩ := budgetPhase_ok hbud
  obtain ⟨q, hq, hvalid, htr, hsa, hsr, hsal, hsbe, hsm, hsn⟩ := selectPhase_ok hsel
  obtain ⟨hrw, hpr, hua, hur, hum, hun, hual, hube⟩ := updatePhase_ok h
  refine ⟨hrw, hpr, chooseArm (o.votes t) q K, ?_, ?_, ?_, ?_, ?_⟩
  · exact argmaxUpTo_le _ _
  · rw [hua, hsa, hba, hca]
  · rw [hur, hsr, hbr, hcr]
  · rw [hual, hsal, hbal, hcal, hur]
  · rw [hube, hsbe, hbbe, hcbe, hur, hua]

/-- Zero hyperparameter vector, used as the out-of-range default when
reading the posterior snapshot lists by index. -/
def zfun : ℕ → ℚ := fun _ => 0

/-- Run invariant after `t` completed loop iterations: one posterior
snapshot per completed step plus the prior; columns at or beyond `t` still
hold their zero initialisation; every completed column of the action
record is one-hot with its drawn return recorded at the chosen arm only;
and every snapshot satisfies the conjugate closed form over the current
history. -/
def RunInv (cfg : Config) (o : Oracle) (K t : ℕ) (st : BState) : Prop :=
  st.alphas.length = t + 1 ∧
  st.betas.length = t + 1 ∧
  (∀ k j, t ≤ j → st.actions k j = 0) ∧
  (∀ k j, t ≤ j → st.returns k j = 0) ∧
  (∀ j < t, ∃ a, a < K ∧ st.actions a j = 1 ∧
      (∀ k, k ≠ a → st.actions k j = 0) ∧
      (∀ k, k ≠ a → st.returns k j = 0) ∧
      st.returns a j = o.rewards j a) ∧
  (∀ i < t, ∀ k,
      st.alphas.getD (i+1) zfun k
        = cfg.alpha k + ∑ j ∈ Finset.range (i+1), st.returns k j ∧
      st.betas.getD (i+1) zfun k
        = cfg.beta k + (∑ j ∈ Finset.range (i+1), st.actions k j
            - ∑ j ∈ Finset.range (i+1), st.returns k j)) ∧
  st.alphas.getD 0 zfun = cfg.alpha ∧
  st.betas.getD 0 zfun = cfg.beta

theorem RunInv_init (cfg : Config) (o : Oracle) (K : ℕ) :
    RunInv cfg o K 0 (initState cfg) := by
  unfold RunInv initState
  refine ⟨rfl, rfl, fun _ _ _ => rfl, fun _ _ _ => rfl, ?_, ?_, rfl, rfl⟩
  · intro j hj; omega
  · intro i hi; omega

theorem RunInv_step {cfg : Config} {o : Oracle} {K M t : ℕ} {st st2 : BState}
    (hK : 1 ≤ K) (h : stepB cfg o K M t st = (st2, none))
    (hinv : RunInv cfg o K t st) : RunInv cfg o K (t+1) st2 := by
  obtain ⟨hlenA, hlenB, hact0, hret0, honehot, hsnap, hgd0a, hgd0b⟩ := hinv
  obtain ⟨hrw, hpr, a, haK, hact, hret, halp, hbet⟩ := stepB_ok_spec h
  have haK2 : a < K := lt_of_le_of_lt haK (Nat.sub_lt hK one_pos)
  have hactkj : ∀ k j, j ≠ t → st2.actions k j = st.actions k j := by
    intro k j hj
    rw [hact]
    unfold writeEntry
    simp [hj]
  have hretkj : ∀ k j, j ≠ t → st2.returns k j = st.returns k j := by
    intro k j hj
    rw [hret]
    unfold writeEntry
    simp [hj]
  refine ⟨?_, ?_, ?_, ?_, ?_, ?_, ?_, ?_⟩
  · rw [halp, List.length_append, hlenA]; rfl
  · rw [hbet, List.length_append, hlenB]; rfl
  · intro k j hj
    rw [hactkj k j (by omega)]
    exact hact0 k j (by omega)
  · intro k j hj
    rw [hretkj k j (by omega)]
    exact hret0 k j (by omega)
  · intro j hj
    rcases Nat.lt_succ_iff_lt_or_eq.mp hj with hjt | hjt
    · obtain ⟨a0, ha0⟩ := honehot j hjt
      exact ⟨a0, ha0.1,
        by rw [hactkj a0 j (by omega)]; exact ha0.2.1,
        fun k hk => by rw [hactkj k j (by omega)]; exact ha0.2.2.1 k hk,
        fun k hk => by rw [hretkj k j (by omega)]; exact ha0.2.2.2.1 k hk,
        by rw [hretkj a0 j (by omega)]; exact ha0.2.2.2.2⟩
    · subst hjt
      refine ⟨a, haK2, ?_, ?_, ?_, ?_⟩
      · rw [hact]; unfold writeEntry; simp
      · intro k hk; rw [hact]; unfold writeEntry
        simp only [hk, false_and, if_false]
        exact hact0 k j le_rfl
      · intro k hk; rw [hret]; unfold writeEntry
        simp only [hk, false_and, if_false]
        exact hret0 k j le_rfl
      · rw [hret]; unfold writeEntry; simp
  · intro i hi k
    rcases Nat.lt_succ_iff_lt_or_eq.mp hi with hit | hit
    · have hidx : i + 1 < st.alphas.length := by omega
      have hidxB : i + 1 < st.betas.length := by omega
      have hsumR : ∑ j ∈ Finset.range (i+1), st2.returns k j
          = ∑ j ∈ Finset.range (i+1), st.returns k j := by
        refine Finset.sum_congr rfl ?_
        intro j hjm
        rw [Finset.mem_range] at hjm
        exact hretkj k j (by omega)
      have hsumA : ∑ j ∈ Finset.range (i+1), st2.actions k j
          = ∑ j ∈ Finset.range (i+1), st.actions k j := by
        refine Finset.sum_congr rfl ?_
        intro j hjm
        rw [Finset.mem_range] at hjm
        exact hactkj k j (by omega)
      constructor
      · rw [halp, List.getD_append _ _ _ _ hidx, hsumR]
        exact (hsnap i hit k).1
      · rw [hbet, List.getD_append _ _ _ _ hidxB, hsumA, hsumR]
        exact (hsnap i hit k).2
    · subst hit
      constructor
      · rw [halp, List.getD_append_right _ _ _ _ (by omega)]
        rw [hlenA]
        simp
      · rw [hbet, List.getD_append_right _ _ _ _ (by omega)]
        rw [hlenB]
        simp
  · rw [halp, List.getD_append _ _ _ _ (by omega)]
    exact hgd0a
  · rw [hbet, List.getD_append _ _ _ _ (by omega)]
    exact hgd0b

theorem runFrom_inv {cfg : Config} {o : Oracle} {K M : ℕ} (hK : 1 ≤ K) :
    ∀ fuel t st st2, runFrom cfg o K M fuel t st = (st2, none) →
      RunInv cfg o K t st → RunInv cfg o K (t + fuel) st2 := by
  intro fuel
  induction fuel with
  | zero =>
    intro t st st2 h hinv
    unfold runFrom at h
    have h1 := congrArg Prod.fst h
    simp only at h1
    subst h1
    simpa using hinv
  | succ fuel ih =>
    intro t st st2 h hinv
    unfold runFrom at h
    split at h
    · rename_i st1 hstep
      have : t + (fuel + 1) = (t + 1) + fuel := by omega
      rw [this]
      exact ih (t+1) st1 st2 h (RunInv_step hK hstep hinv)
    · exact absurd (congrArg Prod.snd h) (by simp)

/-- A run of `execute` that finishes with no error satisfies the run
invariant at the horizon. -/
theorem execute_inv {cfg : Config} {o : Oracle} {K M tmax : ℕ} (hK : 1 ≤ K)
    (h : (execute cfg o K M tmax).2 = none) :
    RunInv cfg o K tmax (execute cfg o K M tmax).1 := by
  have h2 : execute cfg o K M tmax = ((execute cfg o K M tmax).1, none) := by
    rw [← h]
  have := @runFrom_inv cfg o K M hK tmax 0 (initState cfg)
    (execute cfg o K M tmax).1 h2 (RunInv_init cfg o K)
  simpa using this

theorem andThen_none (st : BState) (f : BState → BState × Option String) :
    andThen (st, none) f = f st := rfl

theorem andThen_some (st : BState) (e : String) (f : BState → BState × Option String) :
    andThen (st, some e) f = (st, some e) := rfl

theorem cpd_beta_eq {cfg : Config} (o : Oracle) (K M t : ℕ) (st : BState)
    (hp : cfg.prior_name = "beta") :
    compute_action_predictive_density cfg o K M t st = (cpdState cfg o K M t st, none) := by
  unfold compute_action_predictive_density
  rw [if_pos hp]

theorem computeNSamples_static {cfg : Config} (o : Oracle) (K t : ℕ) (mean var : ℕ → ℚ)
    (hst : cfg.sampling_type = "static") :
    computeNSamples cfg o K t mean var = .ok (.fin cfg.s_n_samples) := by
  unfold computeNSamples
  rw [hst, if_pos rfl]

theorem computeNSamples_argMax {cfg : Config} (o : Oracle) (K t : ℕ) (mean var : ℕ → ℚ)
    (hst : cfg.sampling_type = "argMax") :
    computeNSamples cfg o K t mean var = .ok .inf := by
  unfold computeNSamples
  rw [hst]
  rw [if_neg (by decide), if_neg (by decide), if_neg (by decide), if_neg (by decide),
    if_neg (by decide), if_neg (by decide), if_pos rfl]

theorem computeNSamples_badmode {cfg : Config} (o : Oracle) (K t : ℕ) (mean var : ℕ → ℚ)
    (hbad : cfg.sampling_type ∉
      (["static", "linear", "logT", "sqrtT", "invVar", "invPFA", "argMax"] : List String)) :
    computeNSamples cfg o K t mean var = .error "ValueError: Invalid sampling type" := by
  simp only [List.mem_cons, List.mem_singleton, not_or] at hbad
  obtain ⟨h1, h2, h3, h4, h5, h6, h7, _⟩ := hbad
  unfold computeNSamples
  rw [if_neg h1, if_neg h2, if_neg h3, if_neg h4, if_neg h5, if_neg h6, if_neg h7]

theorem budgetPhase_eq_of {cfg : Config} {o : Oracle} {K t : ℕ} {st : BState} {nr : QInf}
    (h : computeNSamples cfg o K t (fun k => st.predMean k t) (fun k => st.predVar k t)
      = .ok nr) :
    budgetPhase cfg o K t st
      = ({ st with n_samples := fun j => if j = t then nr else st.n_samples j }, none) := by
  unfold budgetPhase
  rw [h]

theorem budgetPhase_err_of {cfg : Config} {o : Oracle} {K t : ℕ} {st : BState} {e : String}
    (h : computeNSamples cfg o K t (fun k => st.predMean k t) (fun k => st.predVar k t)
      = .error e) :
    budgetPhase cfg o K t st = (st, some e) := by
  unfold budgetPhase
  rw [h]

theorem selectPhase_eq_of {o : Oracle} {K t : ℕ} {st : BState} {q : ℚ}
    (hns : st.n_samples t = .fin q)
    (hvalid : validPvals (fun k => st.predMean k t) K)
    (htr : 0 ≤ truncInt q) :
    selectPhase o K t st
      = ({ st with
            actions := writeEntry st.actions (chooseArm (o.votes t) q K) t 1,
            returns := writeEntry st.returns (chooseArm (o.votes t) q K) t
              (o.rewards t (chooseArm (o.votes t) q K)) }, none) := by
  simp only [selectPhase, hns]
  rw [if_pos hvalid, if_neg (not_lt.mpr htr)]

theorem selectPhase_inf_of {o : Oracle} {K t : ℕ} {st : BState}
    (hns : st.n_samples t = .inf) :
    selectPhase o K t st = (st, some "TypeError: unhashable type: slice") := by
  unfold selectPhase
  rw [hns]

theorem updatePhase_eq_of {cfg : Config} {t : ℕ} {st : BState}
    (hnames : cfg.reward_name = "bernoulli" ∧ cfg.prior_name = "beta") :
    updatePhase cfg t st
      = ({ st with
            alphas := st.alphas ++
              [fun k => cfg.alpha k + ∑ j ∈ Finset.range (t+1), st.returns k j],
            betas := st.betas ++
              [fun k => cfg.beta k + (∑ j ∈ Finset.range (t+1), st.actions k j
                - ∑ j ∈ Finset.range (t+1), st.returns k j)] }, none) := by
  unfold updatePhase update_reward_posterior
  rw [if_pos hnames]

theorem updatePhase_err_of {cfg : Config} {t : ℕ} {st : BState}
    (hnames : ¬(cfg.reward_name = "bernoulli" ∧ cfg.prior_name = "beta")) :
    updatePhase cfg t st
      = (st, some "ValueError: Invalid reward_function with reward_prior combination") := by
  unfold updatePhase update_reward_posterior
  rw [if_neg hnames]

/-- The predictive-mean column at time `t` right after the density write is
exactly the Monte Carlo mean vector. -/
theorem cpdState_mean_col (cfg : Config) (o : Oracle) (K M t : ℕ) (st : BState) :
    (fun k => (cpdState cfg o K M t st).predMean k t)
      = mcMean (fun i j => returnsExpectedSamples cfg o t i j) K M := by
  funext k
  simp [cpdState, writeCol]

/-- The Monte Carlo mean column always passes the `pvals` validation of
`np.random.multinomial`. -/
theorem validPvals_mcMean (samples : ℕ → ℕ → ℚ) (K M : ℕ) (hK : 1 ≤ K) (hM : 1 ≤ M) :
    validPvals (mcMean samples K M) K := by
  constructor
  · exact fun k _ => mcMean_nonneg samples K M k
  · rw [← mcMean_sum_eq_one samples K M hK hM]
    exact Finset.sum_le_sum_of_subset_of_nonneg
      (Finset.range_subset.mpr (Nat.sub_le K 1))
      (fun i _ _ => mcMean_nonneg samples K M i)

/-- State reached after the budget write and the action/return writes of a
finite-budget iteration at time `t` with stored budget `q`. -/
def selState (cfg : Config) (o : Oracle) (K M t : ℕ) (st : BState) (q : ℚ) : BState :=
  { cpdState cfg o K M t st with
      n_samples := fun j => if j = t then QInf.fin q
        else (cpdState cfg o K M t st).n_samples j,
      actions := writeEntry (cpdState cfg o K M t st).actions
        (chooseArm (o.votes t) q K) t 1,
      returns := writeEntry (cpdState cfg o K M t st).returns
        (chooseArm (o.votes t) q K) t (o.rewards t (chooseArm (o.votes t) q K)) }

/-- State after a fully successful iteration at time `t`: `selState` plus
the appended posterior snapshot. -/
def updState (cfg : Config) (o : Oracle) (K M t : ℕ) (st : BState) (q : ℚ) : BState :=
  { selState cfg o K M t st q with
      alphas := (selState cfg o K M t st q).alphas ++
        [fun k => cfg.alpha k
          + ∑ j ∈ Finset.range (t+1), (selState cfg o K M t st q).returns k j],
      betas := (selState cfg o K M t st q).betas ++
        [fun k => cfg.beta k
          + (∑ j ∈ Finset.range (t+1), (selState cfg o K M t st q).actions k j
             - ∑ j ∈ Finset.range (t+1), (selState cfg o K M t st q).returns k j)] }

theorem stepB_through_select {cfg : Config} {o : Oracle} {K M t : ℕ} {st : BState} {q : ℚ}
    (hp : cfg.prior_name = "beta") (hK : 1 ≤ K) (hM : 1 ≤ M)
    (hnr : computeNSamples cfg o K t
        (fun k => (cpdState cfg o K M t st).predMean k t)
        (fun k => (cpdState cfg o K M t st).predVar k t) = .ok (.fin q))
    (htr : 0 ≤ truncInt q) :
    andThen (andThen (compute_action_predictive_density cfg o K M t st)
      (budgetPhase cfg o K t)) (selectPhase o K t)
    = (selState cfg o K M t st q, none) := by
  rw [cpd_beta_eq o K M t st hp, andThen_none, budgetPhase_eq_of hnr, andThen_none]
  have hns : ({ cpdState cfg o K M t st with
      n_samples := fun j => if j = t then QInf.fin q
        else (cpdState cfg o K M t st).n_samples j } : BState).n_samples t = .fin q := by
    simp
  have hvalid : validPvals
      (fun k => ({ cpdState cfg o K M t st with
        n_samples := fun j => if j = t then QInf.fin q
          else (cpdState cfg o K M t st).n_samples j } : BState).predMean k t) K := by
    show validPvals (fun k => (cpdState cfg o K M t st).predMean k t) K
    rw [cpdState_mean_col]
    exact validPvals_mcMean _ K M hK hM
  rw [selectPhase_eq_of hns hvalid htr]
  rfl

/-- A fully successful finite-budget iteration computes `updState`. -/
theorem stepB_ok_eq {cfg : Config} {o : Oracle} {K M t : ℕ} {st : BState} {q : ℚ}
    (hrw : cfg.reward_name = "bernoulli") (hp : cfg.prior_name = "beta")
    (hK : 1 ≤ K) (hM : 1 ≤ M)
    (hnr : computeNSamples cfg o K t
        (fun k => (cpdState cfg o K M t st).predMean k t)
        (fun k => (cpdState cfg o K M t st).predVar k t) = .ok (.fin q))
    (htr : 0 ≤ truncInt q) :
    stepB cfg o K M t st = (updState cfg o K M t st q, none) := by
  unfold stepB
  rw [stepB_through_select hp hK hM hnr htr, andThen_none,
    updatePhase_eq_of ⟨hrw, hp⟩]
  rfl

/-- A non-Bernoulli reward paired with a Beta prior survives density,
budget and selection and only raises at the posterior update, with all of
`selState`'s writes already performed. -/
theorem stepB_badreward_eq {cfg : Config} {o : Oracle} {K M t : ℕ} {st : BState} {q : ℚ}
    (hrw : cfg.reward_name ≠ "bernoulli") (hp : cfg.prior_name = "beta")
    (hK : 1 ≤ K) (hM : 1 ≤ M)
    (hnr : computeNSamples cfg o K t
        (fun k => (cpdState cfg o K M t st).predMean k t)
        (fun k => (cpdState cfg o K M t st).predVar k t) = .ok (.fin q))
    (htr : 0 ≤ truncInt q) :
    stepB cfg o K M t st = (selState cfg o K M t st q,
      some "ValueError: Invalid reward_function with reward_prior combination") := by
  unfold stepB
  rw [stepB_through_select hp hK hM hnr htr, andThen_none,
    updatePhase_err_of (fun hc => hrw hc.1)]

/-- In `argMax` mode the iteration stores the infinite sentinel and then
raises the `TypeError` of line 136; the density and budget writes have
happened, no action has been written. -/
theorem stepB_argMax_eq {cfg : Config} {o : Oracle} {K M t : ℕ} {st : BState}
    (hp : cfg.prior_name = "beta") (hmode : cfg.sampling_type = "argMax") :
    stepB cfg o K M t st
      = ({ cpdState cfg o K M t st with
            n_samples := fun j => if j = t then QInf.inf
              else (cpdState cfg o K M t st).n_samples j },
         some "TypeError: unhashable type: slice") := by
  unfold stepB
  rw [cpd_beta_eq o K M t st hp, andThen_none,
    budgetPhase_eq_of (computeNSamples_argMax o K t _ _ hmode), andThen_none,
    selectPhase_inf_of (by simp), andThen_some]

/-- With an unsupported sampling mode the iteration raises the
`ValueError` of line 131, but only after the density write of `cpdState`
has happened. -/
theorem stepB_badmode_eq {cfg : Config} {o : Oracle} {K M t : ℕ} {st : BState}
    (hp : cfg.prior_name = "beta")
    (hbad : cfg.sampling_type ∉
      (["static", "linear", "logT", "sqrtT", "invVar", "invPFA", "argMax"] : List String)) :
    stepB cfg o K M t st
      = (cpdState cfg o K M t st, some "ValueError: Invalid sampling type") := by
  unfold stepB
  rw [cpd_beta_eq o K M t st hp, andThen_none,
    budgetPhase_err_of (computeNSamples_badmode o K t _ _ hbad), andThen_some, andThen_some]

theorem runFrom_err_of_step {cfg : Config} {o : Oracle} {K M : ℕ} {fuel t : ℕ}
    {st st1 : BState} {e : String} (hfuel : 1 ≤ fuel)
    (h : stepB cfg o K M t st = (st1, some e)) :
    runFrom cfg o K M fuel t st = (st1, some e) := by
  obtain ⟨f, rfl⟩ : ∃ f, fuel = f + 1 := ⟨fuel - 1, by omega⟩
  unfold runFrom
  rw [h]

theorem execute_one_of_step {cfg : Config} {o : Oracle} {K M : ℕ} {st1 : BState}
    (h : stepB cfg o K M 0 (initState cfg) = (st1, none)) :
    execute cfg o K M 1 = (st1, none) := by
  unfold execute runFrom
  rw [h]
  rfl

/-- C5: For every time step t at which the Monte Carlo estimator's
`compute_action_predictive_density(t)` runs with M ≥ 1 parameter draws,
the call succeeds and the predictive mean column it writes at t is
entry-wise non-negative and sums to 1 across the K arms. -/
theorem C5_mc_mean_column_is_distribution (cfg : Config) (o : Oracle) (K M t : ℕ)
    (st : BState) (hp : cfg.prior_name = "beta") (hK : 1 ≤ K) (hM : 1 ≤ M) :
    (compute_action_predictive_density cfg o K M t st).2 = none ∧
    (∀ k, 0 ≤ (compute_action_predictive_density cfg o K M t st).1.predMean k t) ∧
    ∑ k ∈ Finset.range K,
      (compute_action_predictive_density cfg o K M t st).1.predMean k t = 1 := by
  rw [cpd_beta_eq o K M t st hp]
  refine ⟨rfl, ?_, ?_⟩
  · intro k
    show 0 ≤ (cpdState cfg o K M t st).predMean k t
    simp only [cpdState, writeCol, if_pos rfl]
    exact mcMean_nonneg _ K M k
  · show ∑ k ∈ Finset.range K, (cpdState cfg o K M t st).predMean k t = 1
    simp only [cpdState, writeCol, if_pos rfl]
    exact mcMean_sum_eq_one _ K M hK hM

/-- C10: For every time step t computed by the Monte Carlo estimator with
M ≥ 1 draws and every arm k, the predictive variance written at (k, t)
equals mean·(1 − mean) for the predictive mean written at (k, t), and
hence lies in [0, 1/4]. -/
theorem C10_mc_variance_identity (cfg : Config) (o : Oracle) (K M t : ℕ)
    (st : BState) (hp : cfg.prior_name = "beta") (hM : 1 ≤ M) :
    ∀ k,
      (compute_action_predictive_density cfg o K M t st).1.predVar k t
        = (compute_action_predictive_density cfg o K M t st).1.predMean k t
          * (1 - (compute_action_predictive_density cfg o K M t st).1.predMean k t) ∧
      0 ≤ (compute_action_predictive_density cfg o K M t st).1.predVar k t ∧
      (compute_action_predictive_density cfg o K M t st).1.predVar k t ≤ 1/4 := by
  rw [cpd_beta_eq o K M t st hp]
  intro k
  show (cpdState cfg o K M t st).predVar k t
      = (cpdState cfg o K M t st).predMean k t
        * (1 - (cpdState cfg o K M t st).predMean k t) ∧
    0 ≤ (cpdState cfg o K M t st).predVar k t ∧
    (cpdState cfg o K M t st).predVar k t ≤ 1/4
  simp only [cpdState, writeCol, if_pos rfl]
  exact ⟨mcVar_eq_mean_mul _ K M k hM, mcVar_nonneg _ K M k, mcVar_le_quarter _ K M k hM⟩

/-- C8 (amended): in sampling modes `invVar` and `invPFA`, provided the
configured cap satisfies n_max ≥ 1 (the cap is applied after the floor,
so a smaller cap wins — see the counterexample), the computed budget is
always a finite value q with 1 ≤ q ≤ n_max — including when the
most-probable arm's variance is 0 (`invVar`) or its mean is 1 (`invPFA`),
where the float division yields `inf` and the cap applies. -/
theorem C8_inv_budget_bounds (cfg : Config) (o : Oracle) (K t : ℕ) (mean var : ℕ → ℚ)
    (hmode : cfg.sampling_type = "invVar" ∨ cfg.sampling_type = "invPFA")
    (hmax : 1 ≤ cfg.s_n_max) :
    ∃ q, computeNSamples cfg o K t mean var = .ok (.fin q) ∧
      1 ≤ q ∧ q ≤ cfg.s_n_max := by
  rcases hmode with h | h
  · unfold computeNSamples
    rw [h, if_neg (by decide), if_neg (by decide), if_neg (by decide), if_neg (by decide),
      if_pos rfl]
    unfold qinv
    by_cases hd : var (argmaxUpTo mean (K-1)) = 0
    · rw [if_pos hd]
      exact ⟨cfg.s_n_max, by simp [qmax, qmin], hmax, le_refl _⟩
    · rw [if_neg hd]
      exact ⟨min (max (1 / var (argmaxUpTo mean (K-1))) 1) cfg.s_n_max,
        by simp [qmax, qmin], le_min (le_max_right _ _) hmax, min_le_right _ _⟩
  · unfold computeNSamples
    rw [h, if_neg (by decide), if_neg (by decide), if_neg (by decide), if_neg (by decide),
      if_neg (by decide), if_pos rfl]
    unfold qinv
    by_cases hd : 1 - mean (argmaxUpTo mean (K-1)) = 0
    · rw [if_pos hd]
      exact ⟨cfg.s_n_max, by simp [qmax, qmin], hmax, le_refl _⟩
    · rw [if_neg hd]
      exact ⟨min (max (1 / (1 - mean (argmaxUpTo mean (K-1)))) 1) cfg.s_n_max,
        by simp [qmax, qmin], le_min (le_max_right _ _) hmax, min_le_right _ _⟩

/-- C9: In sampling modes `logT` (where `np.log(0) = -inf`) and `sqrtT`
(where `np.sqrt(0) = 0`) at t = 0, the budget computation clamps
`n_samples[0]` to the floor value 1 and returns normally — the degeneracy
is absorbed by `np.maximum(..., 1)` and never surfaced as an error. -/
theorem C9_boundary_clamped_to_one (cfg : Config) (o : Oracle) (K : ℕ)
    (mean var : ℕ → ℚ)
    (hlg : o.lg 0 = .negInf) (hsq : o.sq 0 = .fin 0)
    (hmode : cfg.sampling_type = "logT" ∨ cfg.sampling_type = "sqrtT") :
    computeNSamples cfg o K 0 mean var = .ok (.fin 1) := by
  rcases hmode with h | h
  · unfold computeNSamples
    rw [h, if_neg (by decide), if_neg (by decide), if_pos rfl, hlg]
    rfl
  · unfold computeNSamples
    rw [h, if_neg (by decide), if_neg (by decide), if_neg (by decide), if_pos rfl, hsq]
    show Except.ok (QInf.fin (max 0 1)) = Except.ok (QInf.fin 1)
    norm_num

/-- C1 (refuted — code bug): whenever the sampling budget is the infinite
sentinel (in particular in `argMax` mode), line 136 evaluates
`self.actions_predictive_density[:,t].argmax()`, but
`actions_predictive_density` is the dict `{'mean': ..., 'var': ...}`, so
the lookup key `(slice(None), t)` is unhashable and the run aborts with a
`TypeError` instead of choosing the maximal-mean arm; no Action Record
entry is ever written. -/
theorem C1_argMax_mode_raises_type_error (cfg : Config) (o : Oracle) (K M tmax : ℕ)
    (hp : cfg.prior_name = "beta") (hmode : cfg.sampling_type = "argMax")
    (ht : 1 ≤ tmax) :
    (execute cfg o K M tmax).2 = some "TypeError: unhashable type: slice" ∧
    ∀ k j, (execute cfg o K M tmax).1.actions k j = 0 := by
  have hstep := @stepB_argMax_eq cfg o K M 0 (initState cfg) hp hmode
  have hrun := @runFrom_err_of_step cfg o K M tmax 0 (initState cfg) _ _ ht hstep
  unfold execute
  rw [hrun]
  exact ⟨rfl, fun k j => rfl⟩

/-- C6: For every completed time step t of a successful run, the Action
Record column at t sums to exactly 1: exactly one arm (the tallied arm,
which is < K) carries entry 1 and all other rows are 0.  Since the
infinite-sentinel branch always raises before writing (C1), every
completed step went through the finite-budget selector. -/
theorem C6_action_columns_one_hot (cfg : Config) (o : Oracle) (K M tmax : ℕ)
    (hK : 1 ≤ K) (hsucc : (execute cfg o K M tmax).2 = none) :
    ∀ t < tmax,
      (∑ k ∈ Finset.range K, (execute cfg o K M tmax).1.actions k t) = 1 ∧
      ∃ a, a < K ∧ (execute cfg o K M tmax).1.actions a t = 1 ∧
        ∀ k, k ≠ a → (execute cfg o K M tmax).1.actions k t = 0 := by
  have hinv := execute_inv hK hsucc
  unfold RunInv at hinv
  obtain ⟨-, -, -, -, honehot, -, -, -⟩ := hinv
  intro t ht
  obtain ⟨a, haK, h1, h0, -, -⟩ := honehot t ht
  refine ⟨?_, a, haK, h1, h0⟩
  have hfun : ∀ k ∈ Finset.range K,
      (execute cfg o K M tmax).1.actions k t = if k = a then 1 else 0 := by
    intro k _
    by_cases hk : k = a
    · rw [if_pos hk, hk]; exact h1
    · rw [if_neg hk]; exact h0 k hk
  rw [Finset.sum_congr rfl hfun,
    Finset.sum_ite_eq' (Finset.range K) a (fun _ => (1:ℚ)),
    if_pos (Finset.mem_range.mpr haK)]

/-- C4: In a successful (hence Bernoulli/Beta) run, the posterior snapshot
appended at step t is `prior alpha + s_t` / `prior beta + (n_t - s_t)`,
where `s_t` and `n_t` are the per-arm sums of recorded returns and action
indicators over times 0..t; equivalently the snapshot sequence satisfies
the closed-form recursion `alpha_(t+1) = alpha_t + return_t`,
`beta_(t+1) = beta_t + (action_t - return_t)` at each step. -/
theorem C4_posterior_update_closed_form (cfg : Config) (o : Oracle) (K M tmax : ℕ)
    (hK : 1 ≤ K) (hsucc : (execute cfg o K M tmax).2 = none) :
    ∀ t < tmax, ∀ k,
      ((execute cfg o K M tmax).1.alphas.getD (t+1) zfun) k
        = cfg.alpha k + ∑ j ∈ Finset.range (t+1), (execute cfg o K M tmax).1.returns k j ∧
      ((execute cfg o K M tmax).1.betas.getD (t+1) zfun) k
        = cfg.beta k + (∑ j ∈ Finset.range (t+1), (execute cfg o K M tmax).1.actions k j
            - ∑ j ∈ Finset.range (t+1), (execute cfg o K M tmax).1.returns k j) ∧
      ((execute cfg o K M tmax).1.alphas.getD (t+1) zfun) k
        = ((execute cfg o K M tmax).1.alphas.getD t zfun) k
          + (execute cfg o K M tmax).1.returns k t ∧
      ((execute cfg o K M tmax).1.betas.getD (t+1) zfun) k
        = ((execute cfg o K M tmax).1.betas.getD t zfun) k
          + ((execute cfg o K M tmax).1.actions k t
             - (execute cfg o K M tmax).1.returns k t) := by
  have hinv := execute_inv hK hsucc
  unfold RunInv at hinv
  obtain ⟨-, -, -, -, -, hsnap, hgd0a, hgd0b⟩ := hinv
  intro t ht k
  obtain ⟨ha, hb⟩ := hsnap t ht k
  refine ⟨ha, hb, ?_, ?_⟩
  · cases t with
    | zero =>
      rw [ha, congrFun hgd0a k, Finset.sum_range_one]
    | succ i =>
      obtain ⟨hai, -⟩ := hsnap i (by omega) k
      rw [ha, hai, Finset.sum_range_succ]
      ring
  · cases t with
    | zero =>
      rw [hb, congrFun hgd0b k, Finset.sum_range_one, Finset.sum_range_one]
    | succ i =>
      obtain ⟨-, hbi⟩ := hsnap i (by omega) k
      have hdA := Finset.sum_range_succ
        (fun j => (execute cfg o K M tmax).1.actions k j) (i+1)
      have hdR := Finset.sum_range_succ
        (fun j => (execute cfg o K M tmax).1.returns k j) (i+1)
      rw [hb, hbi, hdA, hdR]
      ring

/-- C7: In a successful Bernoulli/Beta run (Bernoulli rewards take values
in {0,1}), the posterior hyperparameter sequences are monotonically
non-decreasing in both alpha and beta: recorded returns are 0 except at
the one-hot chosen arm, whose return is at most its action indicator 1. -/
theorem C7_posterior_monotone (cfg : Config) (o : Oracle) (K M tmax : ℕ)
    (hK : 1 ≤ K) (hrew : ∀ t a, o.rewards t a = 0 ∨ o.rewards t a = 1)
    (hsucc : (execute cfg o K M tmax).2 = none) :
    ∀ t < tmax, ∀ k,
      ((execute cfg o K M tmax).1.alphas.getD t zfun) k
        ≤ ((execute cfg o K M tmax).1.alphas.getD (t+1) zfun) k ∧
      ((execute cfg o K M tmax).1.betas.getD t zfun) k
        ≤ ((execute cfg o K M tmax).1.betas.getD (t+1) zfun) k := by
  have hinv := execute_inv hK hsucc
  unfold RunInv at hinv
  obtain ⟨-, -, -, -, honehot, hsnap, hgd0a, hgd0b⟩ := hinv
  have hcol : ∀ j, j < tmax → ∀ k,
      0 ≤ (execute cfg o K M tmax).1.returns k j ∧
      (execute cfg o K M tmax).1.returns k j ≤ (execute cfg o K M tmax).1.actions k j := by
    intro j hj k
    obtain ⟨a, -, h1, h0, hr0, hra⟩ := honehot j hj
    by_cases hk : k = a
    · subst hk
      rw [hra, h1]
      rcases hrew j k with hr | hr <;> rw [hr] <;> norm_num
    · rw [hr0 k hk, h0 k hk]
      exact ⟨le_refl 0, le_refl 0⟩
  intro t ht k
  obtain ⟨ha, hb⟩ := hsnap t ht k
  obtain ⟨hr0, hrle⟩ := hcol t ht k
  cases t with
  | zero =>
    constructor
    · rw [ha, congrFun hgd0a k, Finset.sum_range_one]
      linarith
    · rw [hb, congrFun hgd0b k, Finset.sum_range_one, Finset.sum_range_one]
      linarith
  | succ i =>
    obtain ⟨hai, hbi⟩ := hsnap i (by omega) k
    have hdA := Finset.sum_range_succ
      (fun j => (execute cfg o K M tmax).1.actions k j) (i+1)
    have hdR := Finset.sum_range_succ
      (fun j => (execute cfg o K M tmax).1.returns k j) (i+1)
    constructor
    · rw [ha, hai, hdR]
      linarith
    · rw [hb, hbi, hdA, hdR]
      linarith

/-- C2 (amended): configuration errors do abort the run with a
`ValueError`, but not before state mutation.  An unsupported sampling mode
raises inside the first loop iteration, after the predictive density at
t = 0 has been written (though before any action or return).  An
unsupported reward/prior pairing with a Beta prior (here on the static
path with a nonnegative budget) raises only at the first posterior
update, after the predictive density, the action and the return at t = 0
have all been written. -/
theorem C2_config_error_after_density_write (cfg : Config) (o : Oracle) (K M tmax : ℕ)
    (hK : 1 ≤ K) (hM : 1 ≤ M) (ht : 1 ≤ tmax) (hp : cfg.prior_name = "beta") :
    (cfg.sampling_type ∉
        (["static", "linear", "logT", "sqrtT", "invVar", "invPFA", "argMax"] : List String) →
      (execute cfg o K M tmax).2 = some "ValueError: Invalid sampling type" ∧
      ∑ k ∈ Finset.range K, (execute cfg o K M tmax).1.predMean k 0 = 1 ∧
      (∀ k j, (execute cfg o K M tmax).1.actions k j = 0) ∧
      (∀ k j, (execute cfg o K M tmax).1.returns k j = 0)) ∧
    (cfg.reward_name ≠ "bernoulli" → cfg.sampling_type = "static" →
      0 ≤ truncInt cfg.s_n_samples →
      (execute cfg o K M tmax).2
        = some "ValueError: Invalid reward_function with reward_prior combination" ∧
      ∑ k ∈ Finset.range K, (execute cfg o K M tmax).1.predMean k 0 = 1 ∧
      ∃ a, a < K ∧ (execute cfg o K M tmax).1.actions a 0 = 1 ∧
        (execute cfg o K M tmax).1.returns a 0 = o.rewards 0 a) := by
  constructor
  · intro hbad
    have hstep := @stepB_badmode_eq cfg o K M 0 (initState cfg) hp hbad
    have hrun := @runFrom_err_of_step cfg o K M tmax 0 (initState cfg) _ _ ht hstep
    unfold execute
    rw [hrun]
    refine ⟨rfl, ?_, fun k j => rfl, fun k j => rfl⟩
    show ∑ k ∈ Finset.range K, (cpdState cfg o K M 0 (initState cfg)).predMean k 0 = 1
    simp only [cpdState, writeCol, if_pos rfl]
    exact mcMean_sum_eq_one _ K M hK hM
  · intro hrw hst htr
    have hnr := computeNSamples_static o K 0
      (fun k => (cpdState cfg o K M 0 (initState cfg)).predMean k 0)
      (fun k => (cpdState cfg o K M 0 (initState cfg)).predVar k 0) hst
    have hstep := @stepB_badreward_eq cfg o K M 0 (initState cfg) cfg.s_n_samples
      hrw hp hK hM hnr htr
    have hrun := @runFrom_err_of_step cfg o K M tmax 0 (initState cfg) _ _ ht hstep
    unfold execute
    rw [hrun]
    refine ⟨rfl, ?_, chooseArm (o.votes 0) cfg.s_n_samples K, ?_, ?_, ?_⟩
    · show ∑ k ∈ Finset.range K,
        (selState cfg o K M 0 (initState cfg) cfg.s_n_samples).predMean k 0 = 1
      show ∑ k ∈ Finset.range K, (cpdState cfg o K M 0 (initState cfg)).predMean k 0 = 1
      simp only [cpdState, writeCol, if_pos rfl]
      exact mcMean_sum_eq_one _ K M hK hM
    · exact lt_of_le_of_lt (argmaxUpTo_le _ _) (Nat.sub_lt hK one_pos)
    · show (selState cfg o K M 0 (initState cfg) cfg.s_n_samples).actions
        (chooseArm (o.votes 0) cfg.s_n_samples K) 0 = 1
      simp [selState, writeEntry]
    · show (selState cfg o K M 0 (initState cfg) cfg.s_n_samples).returns
        (chooseArm (o.votes 0) cfg.s_n_samples K) 0
        = o.rewards 0 (chooseArm (o.votes 0) cfg.s_n_samples K)
      simp [selState, writeEntry]

/-- C3 (amended): on the finite-budget path the Action Selector draws
exactly `int(n_samples[t])` categorical votes — truncation toward zero,
which is the floor for the nonnegative budgets, not the ceiling — tallies
the summed multinomial one-hot rows per arm, and picks the lowest-index
arm with the most votes (the precondition that the mean vector is a valid
probability distribution is enforced by `np.random.multinomial`). -/
theorem C3_selector_truncates_and_tallies (votes : ℕ → ℕ) (q : ℚ) (K : ℕ)
    (hK : 1 ≤ K) (hq : 0 ≤ q) :
    (nVotes q : ℤ) = ⌊q⌋ ∧
    chooseArm votes q K < K ∧
    (∀ k < K,
      voteTally votes (nVotes q) k ≤ voteTally votes (nVotes q) (chooseArm votes q K)) ∧
    (∀ k < chooseArm votes q K,
      voteTally votes (nVotes q) k < voteTally votes (nVotes q) (chooseArm votes q K)) := by
  unfold chooseArm
  refine ⟨?_, ?_, ?_, ?_⟩
  · unfold nVotes truncInt
    rw [if_pos hq]
    exact Int.toNat_of_nonneg (Int.floor_nonneg.mpr hq)
  · exact lt_of_le_of_lt (argmaxUpTo_le _ _) (Nat.sub_lt hK one_pos)
  · intro k hk
    exact argmaxUpTo_is_max _ _ k (by omega)
  · intro k hk
    exact argmaxUpTo_first _ _ k hk

/-- Spec-words selector used only for the C3 refinement comparison, NOT
taken from the source: it draws `ceil(n_samples)` categorical votes, as
the specification sentence states, then tallies and picks the arm with
the most votes (lowest index on ties). -/
def chooseArmCeilSpec (votes : ℕ → ℕ) (q : ℚ) (K : ℕ) : ℕ :=
  argmaxUpTo (voteTally votes (Int.toNat ⌈q⌉)) (K-1)

/-- Concrete deterministic oracle for counterexamples and witnesses: arm 0
always draws the larger Beta sample, the first multinomial vote row is
one-hot at arm 1 and all later rows one-hot at arm 0, rewards are always
1, and the log/sqrt oracles take their numpy values at t = 0. -/
def oW : Oracle :=
  { thetaDraws := fun _ k _ => if k = 0 then 1/2 else 1/4,
    meanFn := id,
    votes := fun _ j => if j = 0 then 1 else 0,
    rewards := fun _ _ => 1,
    lg := fun t => if t = 0 then .negInf else .fin 1,
    sq := fun t => if t = 0 then .fin 0 else .fin 1 }

/-- Bernoulli/Beta configuration with static budget 1 (pure Thompson
sampling), used for witnesses of the run-level claims. -/
def cfgW : Config :=
  { reward_name := "bernoulli", prior_name := "beta",
    alpha := fun _ => 1, beta := fun _ => 1,
    sampling_type := "static", s_n_samples := 1, s_n_0 := 0, s_n := 0, s_n_max := 5 }

/-- Bernoulli/Beta configuration with an unsupported sampling mode name. -/
def cfgBad : Config :=
  { reward_name := "bernoulli", prior_name := "beta",
    alpha := fun _ => 1, beta := fun _ => 1,
    sampling_type := "bogus", s_n_samples := 1, s_n_0 := 0, s_n := 0, s_n_max := 5 }

/-- Bernoulli/Beta configuration with the fractional static budget 3/2. -/
def cfgC3 : Config :=
  { reward_name := "bernoulli", prior_name := "beta",
    alpha := fun _ => 1, beta := fun _ => 1,
    sampling_type := "static", s_n_samples := 3/2, s_n_0 := 0, s_n := 0, s_n_max := 5 }

/-- Bernoulli/Beta configuration in `argMax` sampling mode. -/
def cfgC1 : Config :=
  { reward_name := "bernoulli", prior_name := "beta",
    alpha := fun _ => 1, beta := fun _ => 1,
    sampling_type := "argMax", s_n_samples := 1, s_n_0 := 0, s_n := 0, s_n_max := 5 }

/-- Bernoulli/Beta configuration in `invVar` sampling mode with cap 5. -/
def cfgC8 : Config :=
  { reward_name := "bernoulli", prior_name := "beta",
    alpha := fun _ => 1, beta := fun _ => 1,
    sampling_type := "invVar", s_n_samples := 1, s_n_0 := 0, s_n := 0, s_n_max := 5 }

/-- Bernoulli/Beta configuration in `logT` sampling mode. -/
def cfgC9 : Config :=
  { reward_name := "bernoulli", prior_name := "beta",
    alpha := fun _ => 1, beta := fun _ => 1,
    sampling_type := "logT", s_n_samples := 1, s_n_0 := 0, s_n := 0, s_n_max := 5 }

/-- Non-Bernoulli reward paired with the Beta prior, static budget 1. -/
def cfgGauss : Config :=
  { reward_name := "gaussian", prior_name := "beta",
    alpha := fun _ => 1, beta := fun _ => 1,
    sampling_type := "static", s_n_samples := 1, s_n_0 := 0, s_n := 0, s_n_max := 5 }

/-- The predictive-mean entry of arm 0 at t = 0 under `oW`: arm 0 wins the
single Monte Carlo draw, so its mean is 1. -/
theorem mcMean_oW_arm0 (cfg : Config) (hrw : cfg.reward_name = "bernoulli") :
    mcMean (fun i j => returnsExpectedSamples cfg oW 0 i j) 2 1 0 = 1 := by
  have hpred : argmaxUpTo (fun i => returnsExpectedSamples cfg oW 0 i 0) (2-1) = 0 := by
    norm_num [argmaxUpTo, returnsExpectedSamples, hrw, oW]
  unfold mcMean
  rw [Finset.range_one, Finset.filter_singleton, if_pos hpred]
  norm_num

/-- C2 counterexample: with the unsupported sampling mode "bogus",
K = 2, M = 1, the run does raise the ValueError, but the predictive
density entry at (0, 0) has already been written (it is 1, not its zero
initialisation) when the error is raised — refuting "no predictive-
density, action, or return entry has been written". -/
theorem C2_counterexample :
    (execute cfgBad oW 2 1 1).2 = some "ValueError: Invalid sampling type" ∧
    ¬ (execute cfgBad oW 2 1 1).1.predMean 0 0 = 0 := by
  have hstep := @stepB_badmode_eq cfgBad oW 2 1 0 (initState cfgBad) rfl (by decide)
  have hrun := @runFrom_err_of_step cfgBad oW 2 1 1 0 (initState cfgBad) _ _ (le_refl 1) hstep
  unfold execute
  rw [hrun]
  refine ⟨rfl, ?_⟩
  show ¬ (cpdState cfgBad oW 2 1 0 (initState cfgBad)).predMean 0 0 = 0
  have hval : (cpdState cfgBad oW 2 1 0 (initState cfgBad)).predMean 0 0 = 1 := by
    simp only [cpdState, writeCol, if_pos rfl]
    exact mcMean_oW_arm0 cfgBad rfl
  rw [hval]
  norm_num

/-- The arm chosen by the source's truncating selector under `oW` with
budget 3/2: one vote is drawn (int(3/2) = 1) and it goes to arm 1. -/
theorem chooseArm_oW_budget32 : chooseArm (oW.votes 0) (3/2) 2 = 1 := by
  have hn : nVotes (3/2) = 1 := by
    unfold nVotes truncInt
    rw [if_pos (by norm_num)]
    norm_num [Int.floor_eq_iff]
  unfold chooseArm
  rw [hn]
  norm_num [argmaxUpTo, voteTally, oW, Finset.sum_range_one]

/-- C3 counterexample: with static budget n_samples = 3/2 under `oW`, the
code draws int(3/2) = 1 vote (which goes to arm 1) and records arm 1 as
the action at t = 0, whereas the claimed ceil(3/2) = 2 votes would tally
one vote per arm and the tie-break would pick arm 0.  The selector
therefore does not draw ceil(n_samples) votes. -/
theorem C3_counterexample :
    (execute cfgC3 oW 2 1 1).1.actions 1 0 = 1 ∧
    (execute cfgC3 oW 2 1 1).1.actions 0 0 = 0 ∧
    chooseArmCeilSpec (oW.votes 0) (3/2) 2 = 0 ∧
    nVotes (3/2) = 1 ∧ (⌈(3/2 : ℚ)⌉ : ℤ) = 2 := by
  have hnr := @computeNSamples_static cfgC3 oW 2 0
    (fun k => (cpdState cfgC3 oW 2 1 0 (initState cfgC3)).predMean k 0)
    (fun k => (cpdState cfgC3 oW 2 1 0 (initState cfgC3)).predVar k 0) rfl
  have htr : 0 ≤ truncInt cfgC3.s_n_samples := by
    show (0:ℤ) ≤ truncInt (3/2)
    unfold truncInt
    rw [if_pos (by norm_num)]
    exact Int.floor_nonneg.mpr (by norm_num)
  have hstep := @stepB_ok_eq cfgC3 oW 2 1 0 (initState cfgC3) cfgC3.s_n_samples
    rfl rfl (by norm_num) (by norm_num) hnr htr
  rw [execute_one_of_step hstep]
  have ha : chooseArm (oW.votes 0) cfgC3.s_n_samples 2 = 1 := chooseArm_oW_budget32
  refine ⟨?_, ?_, ?_, ?_, ?_⟩
  · show (selState cfgC3 oW 2 1 0 (initState cfgC3) cfgC3.s_n_samples).actions 1 0 = 1
    simp only [selState, writeEntry, ha]
    norm_num
  · show (selState cfgC3 oW 2 1 0 (initState cfgC3) cfgC3.s_n_samples).actions 0 0 = 0
    simp only [selState, writeEntry, ha]
    norm_num
    rfl
  · have hce : (⌈(3/2 : ℚ)⌉ : ℤ) = 2 := by
      norm_num [Int.ceil_eq_iff]
    have hc : Int.toNat ⌈(3/2 : ℚ)⌉ = 2 := by
      rw [hce]
      rfl
    unfold chooseArmCeilSpec
    rw [hc]
    norm_num [argmaxUpTo, voteTally, oW, Finset.sum_range_succ, Finset.sum_range_one]
  · unfold nVotes truncInt
    rw [if_pos (by norm_num)]
    norm_num [Int.floor_eq_iff]
  · norm_num [Int.ceil_eq_iff]

/-- The pure-Thompson witness run (`cfgW`, K = 2, M = 1, t_max = 1)
completes without error. -/
theorem execute_cfgW_ok : (execute cfgW oW 2 1 1).2 = none := by
  have hnr := @computeNSamples_static cfgW oW 2 0
    (fun k => (cpdState cfgW oW 2 1 0 (initState cfgW)).predMean k 0)
    (fun k => (cpdState cfgW oW 2 1 0 (initState cfgW)).predVar k 0) rfl
  have htr : 0 ≤ truncInt cfgW.s_n_samples := by
    show (0:ℤ) ≤ truncInt 1
    unfold truncInt
    rw [if_pos (by norm_num)]
    exact Int.floor_nonneg.mpr (by norm_num)
  have hstep := @stepB_ok_eq cfgW oW 2 1 0 (initState cfgW) cfgW.s_n_samples
    rfl rfl (by norm_num) (by norm_num) hnr htr
  rw [execute_one_of_step hstep]

theorem C1_witness :
    (cfgC1.prior_name = "beta" ∧ cfgC1.sampling_type = "argMax" ∧ 1 ≤ 1) ∧
    ((execute cfgC1 oW 2 1 1).2 = some "TypeError: unhashable type: slice" ∧
      ∀ k j, (execute cfgC1 oW 2 1 1).1.actions k j = 0) :=
  ⟨⟨rfl, rfl, le_refl 1⟩,
    C1_argMax_mode_raises_type_error cfgC1 oW 2 1 1 rfl rfl (le_refl 1)⟩

theorem C2_witness :
    ((execute cfgBad oW 2 1 1).2 = some "ValueError: Invalid sampling type" ∧
      ∑ k ∈ Finset.range 2, (execute cfgBad oW 2 1 1).1.predMean k 0 = 1) ∧
    ((execute cfgGauss oW 2 1 1).2
        = some "ValueError: Invalid reward_function with reward_prior combination" ∧
      ∑ k ∈ Finset.range 2, (execute cfgGauss oW 2 1 1).1.predMean k 0 = 1) := by
  constructor
  · have h := (C2_config_error_after_density_write cfgBad oW 2 1 1
      (by norm_num) (by norm_num) (by norm_num) rfl).1 (by decide)
    exact ⟨h.1, h.2.1⟩
  · have htr : 0 ≤ truncInt cfgGauss.s_n_samples := by
      show (0:ℤ) ≤ truncInt 1
      unfold truncInt
      rw [if_pos (by norm_num)]
      exact Int.floor_nonneg.mpr (by norm_num)
    have h := (C2_config_error_after_density_write cfgGauss oW 2 1 1
      (by norm_num) (by norm_num) (by norm_num) rfl).2 (by decide) rfl htr
    exact ⟨h.1, h.2.1⟩

theorem C3_witness :
    ((1:ℕ) ≤ 2 ∧ (0:ℚ) ≤ 3/2) ∧
    ((nVotes (3/2) : ℤ) = ⌊(3/2 : ℚ)⌋ ∧
      chooseArm (oW.votes 0) (3/2) 2 < 2 ∧
      (∀ k < 2, voteTally (oW.votes 0) (nVotes (3/2)) k
        ≤ voteTally (oW.votes 0) (nVotes (3/2)) (chooseArm (oW.votes 0) (3/2) 2)) ∧
      (∀ k < chooseArm (oW.votes 0) (3/2) 2,
        voteTally (oW.votes 0) (nVotes (3/2)) k
          < voteTally (oW.votes 0) (nVotes (3/2)) (chooseArm (oW.votes 0) (3/2) 2))) :=
  ⟨⟨by norm_num, by norm_num⟩,
    C3_selector_truncates_and_tallies (oW.votes 0) (3/2) 2 (by norm_num) (by norm_num)⟩

theorem C4_witness :
    ((1:ℕ) ≤ 2 ∧ (execute cfgW oW 2 1 1).2 = none) ∧
    (∀ t < 1, ∀ k,
      ((execute cfgW oW 2 1 1).1.alphas.getD (t+1) zfun) k
        = cfgW.alpha k + ∑ j ∈ Finset.range (t+1), (execute cfgW oW 2 1 1).1.returns k j ∧
      ((execute cfgW oW 2 1 1).1.betas.getD (t+1) zfun) k
        = cfgW.beta k + (∑ j ∈ Finset.range (t+1), (execute cfgW oW 2 1 1).1.actions k j
            - ∑ j ∈ Finset.range (t+1), (execute cfgW oW 2 1 1).1.returns k j) ∧
      ((execute cfgW oW 2 1 1).1.alphas.getD (t+1) zfun) k
        = ((execute cfgW oW 2 1 1).1.alphas.getD t zfun) k
          + (execute cfgW oW 2 1 1).1.returns k t ∧
      ((execute cfgW oW 2 1 1).1.betas.getD (t+1) zfun) k
        = ((execute cfgW oW 2 1 1).1.betas.getD t zfun) k
          + ((execute cfgW oW 2 1 1).1.actions k t
             - (execute cfgW oW 2 1 1).1.returns k t)) :=
  ⟨⟨by norm_num, execute_cfgW_ok⟩,
    C4_posterior_update_closed_form cfgW oW 2 1 1 (by norm_num) execute_cfgW_ok⟩

theorem C5_witness :
    (cfgW.prior_name = "beta" ∧ (1:ℕ) ≤ 2 ∧ (1:ℕ) ≤ 1) ∧
    ((compute_action_predictive_density cfgW oW 2 1 0 (initState cfgW)).2 = none ∧
      (∀ k, 0 ≤ (compute_action_predictive_density cfgW oW 2 1 0 (initState cfgW)).1.predMean k 0) ∧
      ∑ k ∈ Finset.range 2,
        (compute_action_predictive_density cfgW oW 2 1 0 (initState cfgW)).1.predMean k 0 = 1) :=
  ⟨⟨rfl, by norm_num, le_refl 1⟩,
    C5_mc_mean_column_is_distribution cfgW oW 2 1 0 (initState cfgW) rfl (by norm_num) (le_refl 1)⟩

theorem C6_witness :
    ((1:ℕ) ≤ 2 ∧ (execute cfgW oW 2 1 1).2 = none) ∧
    (∀ t < 1,
      (∑ k ∈ Finset.range 2, (execute cfgW oW 2 1 1).1.actions k t) = 1 ∧
      ∃ a, a < 2 ∧ (execute cfgW oW 2 1 1).1.actions a t = 1 ∧
        ∀ k, k ≠ a → (execute cfgW oW 2 1 1).1.actions k t = 0) :=
  ⟨⟨by norm_num, execute_cfgW_ok⟩,
    C6_action_columns_one_hot cfgW oW 2 1 1 (by norm_num) execute_cfgW_ok⟩

theorem C7_witness :
    ((1:ℕ) ≤ 2 ∧ (∀ t a, oW.rewards t a = 0 ∨ oW.rewards t a = 1) ∧
      (execute cfgW oW 2 1 1).2 = none) ∧
    (∀ t < 1, ∀ k,
      ((execute cfgW oW 2 1 1).1.alphas.getD t zfun) k
        ≤ ((execute cfgW oW 2 1 1).1.alphas.getD (t+1) zfun) k ∧
      ((execute cfgW oW 2 1 1).1.betas.getD t zfun) k
        ≤ ((execute cfgW oW 2 1 1).1.betas.getD (t+1) zfun) k) :=
  ⟨⟨by norm_num, fun t a => Or.inr rfl, execute_cfgW_ok⟩,
    C7_posterior_monotone cfgW oW 2 1 1 (by norm_num) (fun t a => Or.inr rfl) execute_cfgW_ok⟩

theorem C8_witness :
    (cfgC8.sampling_type = "invVar" ∧ (1:ℚ) ≤ cfgC8.s_n_max) ∧
    (∃ q, computeNSamples cfgC8 oW 2 0 (fun _ => 0) (fun _ => 0) = .ok (.fin q) ∧
      1 ≤ q ∧ q ≤ cfgC8.s_n_max) :=
  ⟨⟨rfl, by show (1:ℚ) ≤ 5; norm_num⟩,
    C8_inv_budget_bounds cfgC8 oW 2 0 (fun _ => 0) (fun _ => 0) (Or.inl rfl)
      (by show (1:ℚ) ≤ 5; norm_num)⟩

theorem C9_witness :
    (oW.lg 0 = .negInf ∧ oW.sq 0 = .fin 0 ∧ cfgC9.sampling_type = "logT") ∧
    computeNSamples cfgC9 oW 2 0 (fun _ => 0) (fun _ => 0) = .ok (.fin 1) :=
  ⟨⟨rfl, rfl, rfl⟩,
    C9_boundary_clamped_to_one cfgC9 oW 2 (fun _ => 0) (fun _ => 0) rfl rfl (Or.inl rfl)⟩

theorem C10_witness :
    (cfgW.prior_name = "beta" ∧ (1:ℕ) ≤ 1) ∧
    (∀ k,
      (compute_action_predictive_density cfgW oW 2 1 0 (initState cfgW)).1.predVar k 0
        = (compute_action_predictive_density cfgW oW 2 1 0 (initState cfgW)).1.predMean k 0
          * (1 - (compute_action_predictive_density cfgW oW 2 1 0 (initState cfgW)).1.predMean k 0) ∧
      0 ≤ (compute_action_predictive_density cfgW oW 2 1 0 (initState cfgW)).1.predVar k 0 ∧
      (compute_action_predictive_density cfgW oW 2 1 0 (initState cfgW)).1.predVar k 0 ≤ 1/4) :=
  ⟨⟨rfl, le_refl 1⟩,
    C10_mc_variance_identity cfgW oW 2 1 0 (initState cfgW) rfl (le_refl 1)⟩

/-- Configuration in `invVar` mode whose cap n_max = 1/2 lies below the
floor 1. -/
def cfgC8half : Config :=
  { reward_name := "bernoulli", prior_name := "beta",
    alpha := fun _ => 1, beta := fun _ => 1,
    sampling_type := "invVar", s_n_samples := 1, s_n_0 := 0, s_n := 0, s_n_max := 1/2 }

/-- C8 counterexample: in `invVar` mode with configured cap n_max = 1/2
and a zero variance for the most-probable arm, the computed budget is
1/2 < 1 — `np.minimum(..., n_max)` is applied after the floor, so a cap
below 1 drags the budget below 1 and the claim as stated fails. -/
theorem C8_counterexample :
    computeNSamples cfgC8half oW 2 0 (fun _ => 0) (fun _ => 0) = .ok (.fin (1/2)) ∧
    ¬ ((1:ℚ) ≤ 1/2) := by
  refine ⟨?_, by norm_num⟩
  unfold computeNSamples
  rw [show cfgC8half.sampling_type = "invVar" from rfl,
    if_neg (by decide), if_neg (by decide), if_neg (by decide), if_neg (by decide),
    if_pos rfl]
  norm_num [qinv, qmax, qmin, cfgC8half]
